import Mathlib

set_option maxRecDepth 8192

/-!
# The vtgate dialer registry and the StreamEvent codec contract

Part I embeds `go/vt/vtgate/vtgateconn/vtgateconn.go`: the package-level map
`dialers`, the flag `vtgate_protocol`, and the functions `RegisterDialer`,
`GetDialer` and `GetDialerWithProtocol`.  The package state is passed
explicitly; the lines written through glog are collected in a list.

Part II concerns the codec exercised by
`go/vt/mysqlctl/proto/stream_event_test.go`.  The structs `reflectStreamEvent`
and `badStreamEvent`, the Go values they hold (strings, slices with the nil
slice apart from the empty one, interface values tagged with their dynamic
type) and the values the test builds are embedded from that file.  The codec
itself (package `bson`, the declaration of `StreamEvent` and its generated
`MarshalBson` and `UnmarshalBson`) is not among the sources; it is modelled
from the specification as a byte-level document format, and each such
definition says so.

Definitions come first, theorems after them.
-/

namespace vtgateconn

/-- A value of the Go type `DialerFunc`: either `nil` or a function value.
Function values are not inspected by the registry, so each one is
represented by an identifier. -/
inductive DialerFunc where
  | nil : DialerFunc
  | fn (id : Nat) : DialerFunc
  deriving DecidableEq, Repr

/-- The constant `GoRPCProtocol`. -/
def GoRPCProtocol : String := "gorpc"

/-- The package-level state: the map `dialers`, the value the flag
`vtgate_protocol` points to, and the warnings logged so far. -/
structure Package where
  dialers : String → Option DialerFunc
  vtgateProtocol : String
  log : List String

/-- The state after package initialisation with the flag left at its
default: `make(map[string]DialerFunc)` and `GoRPCProtocol`. -/
def initial : Package :=
  { dialers := fun _ => none, vtgateProtocol := GoRPCProtocol, log := [] }

/-- The function `RegisterDialer`: when `dialers[name]` is present, warn and
return; otherwise assign `dialers[name] = dialer`. -/
def RegisterDialer (s : Package) (name : String) (dialer : DialerFunc) : Package :=
  match s.dialers name with
  | some _ => { s with log := s.log ++ ["Dialer " ++ name ++ " already exists"] }
  | none => { s with dialers := fun k => if k = name then some dialer else s.dialers k }

/-- The function `GetDialerWithProtocol`: the returned dialer together with
the package state after the call. -/
def GetDialerWithProtocol (s : Package) (protocol : String) : DialerFunc × Package :=
  match s.dialers protocol with
  | none =>
    (DialerFunc.nil,
      { s with log := s.log ++ ["No dialer registered for VTGate protocol " ++ protocol] })
  | some td => (td, s)

/-- The function `GetDialer`. -/
def GetDialer (s : Package) : DialerFunc × Package :=
  GetDialerWithProtocol s s.vtgateProtocol

/-- A sequence of `RegisterDialer` calls, run in order. -/
def registerAll (s : Package) : List (String × DialerFunc) → Package
  | [] => s
  | (name, dialer) :: rest => registerAll (RegisterDialer s name dialer) rest

/-- The dialer passed by the first call in `calls` whose name is `name`. -/
def firstCall (name : String) : List (String × DialerFunc) → Option DialerFunc
  | [] => none
  | (n, d) :: rest => if n = name then some d else firstCall name rest

/-- A registry in which `gorpc` is already bound to the function value 0. -/
def gorpcRegistered : Package := RegisterDialer initial "gorpc" (DialerFunc.fn 0)

end vtgateconn

/-! ## Part II, definitions: the StreamEvent codec -/

namespace bson

/-- One octet of an encoded buffer. -/
abbrev Byte := Fin 256

/-- The low eight bits of a number, as a byte. -/
def byte (n : Nat) : Byte := ⟨n % 256, Nat.mod_lt n (by decide)⟩

/-- A Go string: a sequence of bytes, compared byte by byte. -/
abbrev GoString := List Byte

/-- The Go string written as a literal of ASCII characters. -/
def ascii (s : String) : GoString := s.toList.map (fun c => byte c.toNat)

/-- A Go slice value: the nil slice, or a slice with its elements.  The nil
slice and the empty slice are different values. -/
inductive Slice (α : Type) where
  | nil : Slice α
  | mk (elems : List α) : Slice α
  deriving DecidableEq

/-- A Go value of type `interface{}` as `PKValues` holds it: the nil
interface, or a value tagged with its dynamic type.  The dynamic types are
the ones the test stores (`string`, `int`, `uint64`) and `int64`; `int` and
`int64` are different dynamic types. -/
inductive Value where
  | nil : Value
  | string (s : GoString) : Value
  | int (i : Int) : Value
  | int64 (i : Int) : Value
  | uint64 (n : Nat) : Value
  deriving DecidableEq

/-- The static types of the fields of the structs in the test. -/
inductive Ty where
  | string : Ty
  | int : Ty
  | int64 : Ty
  | uint64 : Ty
  | iface : Ty
  | slice (elem : Ty) : Ty
  deriving DecidableEq

/-- The Go values of a static type. -/
def Ty.denote : Ty → Type
  | Ty.string => GoString
  | Ty.int => Int
  | Ty.int64 => Int
  | Ty.uint64 => Nat
  | Ty.iface => Value
  | Ty.slice t => Slice t.denote

/-- A struct field as reflection sees it: name, static type, value. -/
structure Field where
  name : GoString
  ty : Ty
  val : ty.denote

/-- The struct `reflectStreamEvent` of the test. -/
structure reflectStreamEvent where
  Category : GoString
  TableName : GoString
  PKColNames : Slice GoString
  PKValues : Slice (Slice Value)
  Sql : GoString
  Timestamp : Int
  GroupId : GoString

/-- The struct `badStreamEvent` of the test. -/
structure badStreamEvent where
  Extra : Int
  Category : GoString
  TableName : GoString
  PKColNames : Slice GoString
  PKValues : Slice (Slice Value)
  Sql : GoString
  Timestamp : Int
  GroupId : GoString

/-- Modelled from the spec: the declaration of `StreamEvent` is absent from the
sources.  Its fields are those the test assigns, in the declared order of
`reflectStreamEvent`. -/
structure StreamEvent where
  Category : GoString
  TableName : GoString
  PKColNames : Slice GoString
  PKValues : Slice (Slice Value)
  Sql : GoString
  Timestamp : Int
  GroupId : GoString
  deriving DecidableEq

/-- The fields of a `reflectStreamEvent`, in declared order. -/
def reflectStreamEvent.fields (r : reflectStreamEvent) : List Field :=
  [ ⟨ascii "Category", Ty.string, r.Category⟩,
    ⟨ascii "TableName", Ty.string, r.TableName⟩,
    ⟨ascii "PKColNames", Ty.slice Ty.string, r.PKColNames⟩,
    ⟨ascii "PKValues", Ty.slice (Ty.slice Ty.iface), r.PKValues⟩,
    ⟨ascii "Sql", Ty.string, r.Sql⟩,
    ⟨ascii "Timestamp", Ty.int64, r.Timestamp⟩,
    ⟨ascii "GroupId", Ty.string, r.GroupId⟩ ]

/-- The fields of a `badStreamEvent`, in declared order. -/
def badStreamEvent.fields (r : badStreamEvent) : List Field :=
  [ ⟨ascii "Extra", Ty.int, r.Extra⟩,
    ⟨ascii "Category", Ty.string, r.Category⟩,
    ⟨ascii "TableName", Ty.string, r.TableName⟩,
    ⟨ascii "PKColNames", Ty.slice Ty.string, r.PKColNames⟩,
    ⟨ascii "PKValues", Ty.slice (Ty.slice Ty.iface), r.PKValues⟩,
    ⟨ascii "Sql", Ty.string, r.Sql⟩,
    ⟨ascii "Timestamp", Ty.int64, r.Timestamp⟩,
    ⟨ascii "GroupId", Ty.string, r.GroupId⟩ ]

/-- The plain struct with the same fields and values as a `StreamEvent`. -/
def StreamEvent.toReflect (e : StreamEvent) : reflectStreamEvent :=
  { Category := e.Category, TableName := e.TableName, PKColNames := e.PKColNames,
    PKValues := e.PKValues, Sql := e.Sql, Timestamp := e.Timestamp, GroupId := e.GroupId }

/-- The value the test encodes, `custom`. -/
def testEvent : StreamEvent :=
  { Category := ascii "str1", TableName := ascii "str2",
    PKColNames := Slice.mk [ascii "str3", ascii "str4"],
    PKValues := Slice.mk
      [ Slice.mk [Value.string (ascii "str5"), Value.int 1, Value.uint64 0xffffffffffffffff],
        Slice.mk [Value.string (ascii "str6"), Value.int 2, Value.uint64 0xfffffffffffffffe] ],
    Sql := ascii "str7", Timestamp := 3, GroupId := ascii "str8" }

/-- The zero value of `StreamEvent`, as `var unmarshalled StreamEvent` gives. -/
def zeroEvent : StreamEvent :=
  { Category := [], TableName := [], PKColNames := Slice.nil, PKValues := Slice.nil, Sql := [],
    Timestamp := 0, GroupId := [] }

/-- The zero value `badStreamEvent{}` of the test. -/
def zeroBad : badStreamEvent :=
  { Extra := 0, Category := [], TableName := [], PKColNames := Slice.nil,
    PKValues := Slice.nil, Sql := [], Timestamp := 0, GroupId := [] }

/-- A struct in which a field named `Category` is an `int` and is followed by
a field `Extra` that `StreamEvent` does not declare. -/
def mistypedBad : List Field :=
  [ ⟨ascii "Category", Ty.int, (7 : Int)⟩, ⟨ascii "Extra", Ty.int, (0 : Int)⟩ ]

/-- Modelled from the spec: package bson is absent from the sources.  The
kind byte that ends a document. -/
def EOO : Byte := 0x00

/-- Modelled from the spec: package bson is absent from the sources.  The
kind byte of an array, which carries a slice that is not nil. -/
def Array : Byte := 0x04

/-- Modelled from the spec: package bson is absent from the sources.  The
kind byte of binary data, which carries a Go string. -/
def Binary : Byte := 0x05

/-- Modelled from the spec: package bson is absent from the sources.  The
kind byte of the null element, which carries a nil slice or nil interface. -/
def Null : Byte := 0x0A

/-- Modelled from the spec: package bson is absent from the sources.  The
kind byte of a signed 32-bit integer, which carries a Go `int`. -/
def Int32 : Byte := 0x10

/-- Modelled from the spec: package bson is absent from the sources.  The
kind byte of a signed 64-bit integer, which carries a Go `int64`. -/
def Long : Byte := 0x12

/-- Modelled from the spec: package bson is absent from the sources.  The
kind byte of an unsigned 64-bit integer, which carries a Go `uint64`. -/
def Ulong : Byte := 0x3F

/-- Modelled from the spec: package bson is absent from the sources.  Four
bytes, little endian, of `n` taken modulo 2^32. -/
def putUint32 (n : Nat) : List Byte :=
  [byte n, byte (n / 2 ^ 8), byte (n / 2 ^ 16), byte (n / 2 ^ 24)]

/-- Modelled from the spec: package bson is absent from the sources.  Eight
bytes, little endian, of `n` taken modulo 2^64. -/
def putUint64 (n : Nat) : List Byte :=
  [byte n, byte (n / 2 ^ 8), byte (n / 2 ^ 16), byte (n / 2 ^ 24),
   byte (n / 2 ^ 32), byte (n / 2 ^ 40), byte (n / 2 ^ 48), byte (n / 2 ^ 56)]

/-- Modelled from the spec: package bson is absent from the sources.  The
decimal rendering of an array index, used as the key of an array element. -/
def Itoa (i : Nat) : GoString := (Nat.toDigits 10 i).map (fun c => byte c.toNat)

/-- Modelled from the spec: package bson is absent from the sources.  The
kind byte, the key and the zero byte that ends the key. -/
def EncodePrefix (etype : Byte) (key : GoString) : List Byte :=
  etype :: (key ++ [0])

/-- Modelled from the spec: package bson is absent from the sources.  A
document body framed by its total length, which counts the four length bytes
and the end marker, and by the end marker. -/
def lenWriter (body : List Byte) : List Byte :=
  putUint32 (4 + body.length + 1) ++ body ++ [EOO]

/-- Modelled from the spec: package bson is absent from the sources.  A Go
string is written as binary data: prefix, length, subtype byte zero, bytes. -/
def EncodeString (key : GoString) (val : GoString) : List Byte :=
  EncodePrefix Binary key ++ putUint32 val.length ++ [0] ++ val

/-- Modelled from the spec: package bson is absent from the sources.  A Go
`int64` is written as a Long, in two's complement. -/
def EncodeInt64 (key : GoString) (val : Int) : List Byte :=
  EncodePrefix Long key ++ putUint64 (val % 2 ^ 64).toNat

/-- Modelled from the spec: package bson is absent from the sources.  A Go
`int` is written as a 32-bit integer, in two's complement, so that it comes
back with its own dynamic type. -/
def EncodeInt (key : GoString) (val : Int) : List Byte :=
  EncodePrefix Int32 key ++ putUint32 (val % 2 ^ 32).toNat

/-- Modelled from the spec: package bson is absent from the sources.  A Go
`uint64` is written as a Ulong. -/
def EncodeUint64 (key : GoString) (val : Nat) : List Byte :=
  EncodePrefix Ulong key ++ putUint64 val

/-- Modelled from the spec: package bson is absent from the sources.  An
interface value is written according to its dynamic type, the nil interface
as a null element. -/
def EncodeInterface (key : GoString) : Value → List Byte
  | Value.nil => EncodePrefix Null key
  | Value.string s => EncodeString key s
  | Value.int i => EncodeInt key i
  | Value.int64 i => EncodeInt64 key i
  | Value.uint64 n => EncodeUint64 key n

/-- Modelled from the spec: package bson is absent from the sources.  The
elements of a slice, each keyed by its decimal index. -/
def encodeElems {α : Type} (f : GoString → α → List Byte) : Nat → List α → List Byte
  | _, [] => []
  | i, x :: xs => f (Itoa i) x ++ encodeElems f (i + 1) xs

/-- Modelled from the spec: package bson is absent from the sources.  A slice
whose elements are written by `enc`: the nil slice is a null element, any
other slice an array. -/
def encodeArray {α : Type} (enc : GoString → α → List Byte) (key : GoString) :
    Slice α → List Byte
  | Slice.nil => EncodePrefix Null key
  | Slice.mk xs => EncodePrefix Array key ++ lenWriter (encodeElems enc 0 xs)

/-- Modelled from the spec: package bson is absent from the sources.  The
reflective encoder of one keyed value, by recursion on its static type. -/
def EncodeField : (t : Ty) → GoString → t.denote → List Byte
  | Ty.string, key, v => EncodeString key v
  | Ty.int, key, v => EncodeInt key v
  | Ty.int64, key, v => EncodeInt64 key v
  | Ty.uint64, key, v => EncodeUint64 key v
  | Ty.iface, key, v => EncodeInterface key v
  | Ty.slice t, key, v => encodeArray (EncodeField t) key v

/-- Modelled from the spec: package bson is absent from the sources.  The
fields of a struct, written in the order given. -/
def encodeFields : List Field → List Byte
  | [] => []
  | f :: fs => EncodeField f.ty f.name f.val ++ encodeFields fs

/-- Modelled from the spec: package bson is absent from the sources.  The
generic reflective `bson.Marshal` of a plain struct, given by its fields in
declared order. -/
def MarshalStruct (fs : List Field) : List Byte := lenWriter (encodeFields fs)

/-- Modelled from the spec: the custom encoder of `StreamEvent` is absent from
the sources.  Its loop over the elements of `PKColNames`. -/
def encodePKColNames : Nat → List GoString → List Byte
  | _, [] => []
  | i, v :: rest => EncodeString (Itoa i) v ++ encodePKColNames (i + 1) rest

/-- Modelled from the spec: the custom encoder of `StreamEvent` is absent from
the sources.  Its inner loop over the elements of one row of `PKValues`. -/
def encodePKRow : Nat → List Value → List Byte
  | _, [] => []
  | i, v :: rest => EncodeInterface (Itoa i) v ++ encodePKRow (i + 1) rest

/-- Modelled from the spec: the custom encoder of `StreamEvent` is absent from
the sources.  Its outer loop over the rows of `PKValues`. -/
def encodePKValues : Nat → List (Slice Value) → List Byte
  | _, [] => []
  | i, Slice.nil :: rest => EncodePrefix Null (Itoa i) ++ encodePKValues (i + 1) rest
  | i, Slice.mk row :: rest =>
    (EncodePrefix Array (Itoa i) ++ lenWriter (encodePKRow 0 row)) ++ encodePKValues (i + 1) rest

/-- Modelled from the spec: the custom encoder of `StreamEvent` (the method
`MarshalBson` that `bson.Marshal` calls) is absent from the sources.  It
writes the declared fields one statement after another, in declared order. -/
def StreamEvent.MarshalBson (e : StreamEvent) : List Byte :=
  lenWriter
    (EncodeString (ascii "Category") e.Category
      ++ EncodeString (ascii "TableName") e.TableName
      ++ (match e.PKColNames with
          | Slice.nil => EncodePrefix Null (ascii "PKColNames")
          | Slice.mk names =>
            EncodePrefix Array (ascii "PKColNames") ++ lenWriter (encodePKColNames 0 names))
      ++ (match e.PKValues with
          | Slice.nil => EncodePrefix Null (ascii "PKValues")
          | Slice.mk rows =>
            EncodePrefix Array (ascii "PKValues") ++ lenWriter (encodePKValues 0 rows))
      ++ EncodeString (ascii "Sql") e.Sql
      ++ EncodeInt64 (ascii "Timestamp") e.Timestamp
      ++ EncodeString (ascii "GroupId") e.GroupId)

/-- Modelled from the spec: package bson is absent from the sources.  The
failures of decoding. -/
inductive BsonError where
  | unrecognizedTag (key : GoString) : BsonError
  | unexpectedKind (kind : Byte) : BsonError
  | invalidLength : BsonError
  | unexpectedEOF : BsonError
  deriving DecidableEq

/-- Modelled from the spec: package bson is absent from the sources.  The
message of a decoding failure, a Go string; for an unknown field it is the
text the test expects followed by the bytes of the field name. -/
def BsonError.Error : BsonError → GoString
  | BsonError.unrecognizedTag key => ascii "Unrecognized tag " ++ key
  | BsonError.unexpectedKind kind => ascii "Unexpected data type " ++ Itoa kind.val
  | BsonError.invalidLength => ascii "Invalid length"
  | BsonError.unexpectedEOF => ascii "Unexpected end of buffer"

/-- A decoder result: the value read and the rest of the buffer. -/
abbrev Dec (α : Type) := Except BsonError (α × List Byte)

/-- Modelled from the spec: package bson is absent from the sources.  The
next byte of the buffer. -/
def NextByte : List Byte → Dec Byte
  | [] => Except.error BsonError.unexpectedEOF
  | b :: rest => Except.ok (b, rest)

/-- Modelled from the spec: package bson is absent from the sources.  The
next `n` bytes of the buffer. -/
def Next : Nat → List Byte → Dec (List Byte)
  | 0, buf => Except.ok ([], buf)
  | _ + 1, [] => Except.error BsonError.unexpectedEOF
  | n + 1, b :: rest =>
    match Next n rest with
    | Except.ok (bs, rest2) => Except.ok (b :: bs, rest2)
    | Except.error e => Except.error e

/-- Modelled from the spec: package bson is absent from the sources.  The
bytes up to the next zero byte, which is consumed. -/
def ReadCString : List Byte → Dec GoString
  | [] => Except.error BsonError.unexpectedEOF
  | b :: rest =>
    if b = 0 then Except.ok ([], rest)
    else
      match ReadCString rest with
      | Except.ok (bs, rest2) => Except.ok (b :: bs, rest2)
      | Except.error e => Except.error e

/-- The number a little-endian byte sequence stands for. -/
def leNat : List Byte → Nat
  | [] => 0
  | b :: rest => b.val + 256 * leNat rest

/-- Modelled from the spec: package bson is absent from the sources.  A
signed 32-bit little-endian integer. -/
def Pint32 (buf : List Byte) : Dec Int :=
  match Next 4 buf with
  | Except.ok (bs, rest) =>
    let n := leNat bs
    Except.ok (if n < 2 ^ 31 then (n : Int) else (n : Int) - 2 ^ 32, rest)
  | Except.error e => Except.error e

/-- Modelled from the spec: package bson is absent from the sources.  A
signed 64-bit little-endian integer. -/
def Pint64 (buf : List Byte) : Dec Int :=
  match Next 8 buf with
  | Except.ok (bs, rest) =>
    let n := leNat bs
    Except.ok (if n < 2 ^ 63 then (n : Int) else (n : Int) - 2 ^ 64, rest)
  | Except.error e => Except.error e

/-- Modelled from the spec: package bson is absent from the sources.  An
unsigned 64-bit little-endian integer. -/
def Puint64 (buf : List Byte) : Dec Nat :=
  match Next 8 buf with
  | Except.ok (bs, rest) => Except.ok (leNat bs, rest)
  | Except.error e => Except.error e

/-- Modelled from the spec: package bson is absent from the sources.  The
payload of binary data: length, subtype byte, bytes. -/
def readBinary (buf : List Byte) : Dec GoString :=
  match Pint32 buf with
  | Except.error e => Except.error e
  | Except.ok (l, buf1) =>
    if l < 0 then Except.error BsonError.invalidLength
    else
      match NextByte buf1 with
      | Except.error e => Except.error e
      | Except.ok (_, buf2) => Next l.toNat buf2

/-- Modelled from the spec: package bson is absent from the sources.  A Go
string is read from binary data; any other kind is an error. -/
def DecodeString (kind : Byte) (buf : List Byte) : Dec GoString :=
  if kind = Binary then readBinary buf
  else Except.error (BsonError.unexpectedKind kind)

/-- Modelled from the spec: package bson is absent from the sources.  A Go
`int64` is read from a Long; any other kind is an error. -/
def DecodeInt64 (kind : Byte) (buf : List Byte) : Dec Int :=
  if kind = Long then Pint64 buf
  else Except.error (BsonError.unexpectedKind kind)

/-- Modelled from the spec: package bson is absent from the sources.  An
interface value is read with the dynamic type its kind byte stands for. -/
def DecodeInterface (kind : Byte) (buf : List Byte) : Dec Value :=
  if kind = Null then Except.ok (Value.nil, buf)
  else if kind = Binary then
    match readBinary buf with
    | Except.ok (s, rest) => Except.ok (Value.string s, rest)
    | Except.error e => Except.error e
  else if kind = Int32 then
    match Pint32 buf with
    | Except.ok (i, rest) => Except.ok (Value.int i, rest)
    | Except.error e => Except.error e
  else if kind = Long then
    match Pint64 buf with
    | Except.ok (i, rest) => Except.ok (Value.int64 i, rest)
    | Except.error e => Except.error e
  else if kind = Ulong then
    match Puint64 buf with
    | Except.ok (n, rest) => Except.ok (Value.uint64 n, rest)
    | Except.error e => Except.error e
  else Except.error (BsonError.unexpectedKind kind)

/-- Modelled from the spec: package bson is absent from the sources.  The
elements of an array, read until the end marker: each is a kind byte, an
index key that is skipped, and a value read by `elem`. -/
def decodeElems {α : Type} (elem : Byte → List Byte → Dec α) :
    Nat → List Byte → List α → Dec (List α)
  | 0, _, _ => Except.error BsonError.unexpectedEOF
  | fuel + 1, buf, acc =>
    match NextByte buf with
    | Except.error e => Except.error e
    | Except.ok (kind, buf1) =>
      if kind = EOO then Except.ok (acc, buf1)
      else
        match ReadCString buf1 with
        | Except.error e => Except.error e
        | Except.ok (_, buf2) =>
          match elem kind buf2 with
          | Except.error e => Except.error e
          | Except.ok (x, buf3) => decodeElems elem fuel buf3 (acc ++ [x])

/-- Modelled from the spec: package bson is absent from the sources.  A
slice: a null element is the nil slice; for an array the length is skipped
and the elements are read, with the number of bytes left as the bound on
turns. -/
def DecodeArray {α : Type} (elem : Byte → List Byte → Dec α) (kind : Byte)
    (buf : List Byte) : Dec (Slice α) :=
  if kind = Null then Except.ok (Slice.nil, buf)
  else if kind = Array then
    match Next 4 buf with
    | Except.error e => Except.error e
    | Except.ok (_, buf1) =>
      match decodeElems elem buf1.length buf1 [] with
      | Except.error e => Except.error e
      | Except.ok (xs, buf2) => Except.ok (Slice.mk xs, buf2)
  else Except.error (BsonError.unexpectedKind kind)

/-- Modelled from the spec: package bson is absent from the sources.  The
value of an element is passed over without being decoded: its kind gives its
size, and an array carries its own length. -/
def skipValue (kind : Byte) (buf : List Byte) : Dec Unit :=
  if kind = Null then Except.ok ((), buf)
  else if kind = Binary then
    match Pint32 buf with
    | Except.error e => Except.error e
    | Except.ok (l, buf1) =>
      if l < 0 then Except.error BsonError.invalidLength
      else
        match Next (l.toNat + 1) buf1 with
        | Except.error e => Except.error e
        | Except.ok (_, buf2) => Except.ok ((), buf2)
  else if kind = Int32 then
    match Next 4 buf with
    | Except.error e => Except.error e
    | Except.ok (_, buf1) => Except.ok ((), buf1)
  else if kind = Long ∨ kind = Ulong then
    match Next 8 buf with
    | Except.error e => Except.error e
    | Except.ok (_, buf1) => Except.ok ((), buf1)
  else if kind = Array then
    match Pint32 buf with
    | Except.error e => Except.error e
    | Except.ok (l, buf1) =>
      if l < 4 then Except.error BsonError.invalidLength
      else
        match Next (l.toNat - 4) buf1 with
        | Except.error e => Except.error e
        | Except.ok (_, buf2) => Except.ok ((), buf2)
  else Except.error (BsonError.unexpectedKind kind)

/-- The names of the fields `StreamEvent` declares, in declared order. -/
def declaredNames : List GoString :=
  [ascii "Category", ascii "TableName", ascii "PKColNames", ascii "PKValues", ascii "Sql",
   ascii "Timestamp", ascii "GroupId"]

/-- Modelled from the spec: the custom decoder of `StreamEvent` is absent from
the sources.  The closed-schema check: every key of the document is compared
with the declared names before any field is populated, and the first key
that is not declared is a failure that names it. -/
def checkKeys : Nat → List Byte → Except BsonError Unit
  | 0, _ => Except.error BsonError.unexpectedEOF
  | fuel + 1, buf =>
    match NextByte buf with
    | Except.error err => Except.error err
    | Except.ok (kind, buf1) =>
      if kind = EOO then Except.ok ()
      else
        match ReadCString buf1 with
        | Except.error err => Except.error err
        | Except.ok (key, buf2) =>
          if key ∈ declaredNames then
            match skipValue kind buf2 with
            | Except.error err => Except.error err
            | Except.ok (_, buf3) => checkKeys fuel buf3
          else Except.error (BsonError.unrecognizedTag key)

/-- Modelled from the spec: the custom decoder of `StreamEvent` is absent from
the sources.  Its loop over the elements of the document: the key selects
the decoder of its field. -/
def decodeStreamEvent : Nat → List Byte → StreamEvent → Dec StreamEvent
  | 0, _, _ => Except.error BsonError.unexpectedEOF
  | fuel + 1, buf, e =>
    match NextByte buf with
    | Except.error err => Except.error err
    | Except.ok (kind, buf1) =>
      if kind = EOO then Except.ok (e, buf1)
      else
        match ReadCString buf1 with
        | Except.error err => Except.error err
        | Except.ok (key, buf2) =>
          if key = ascii "Category" then
            match DecodeString kind buf2 with
            | Except.error err => Except.error err
            | Except.ok (v, buf3) => decodeStreamEvent fuel buf3 { e with Category := v }
          else if key = ascii "TableName" then
            match DecodeString kind buf2 with
            | Except.error err => Except.error err
            | Except.ok (v, buf3) => decodeStreamEvent fuel buf3 { e with TableName := v }
          else if key = ascii "PKColNames" then
            match DecodeArray DecodeString kind buf2 with
            | Except.error err => Except.error err
            | Except.ok (v, buf3) => decodeStreamEvent fuel buf3 { e with PKColNames := v }
          else if key = ascii "PKValues" then
            match DecodeArray (DecodeArray DecodeInterface) kind buf2 with
            | Except.error err => Except.error err
            | Except.ok (v, buf3) => decodeStreamEvent fuel buf3 { e with PKValues := v }
          else if key = ascii "Sql" then
            match DecodeString kind buf2 with
            | Except.error err => Except.error err
            | Except.ok (v, buf3) => decodeStreamEvent fuel buf3 { e with Sql := v }
          else if key = ascii "Timestamp" then
            match DecodeInt64 kind buf2 with
            | Except.error err => Except.error err
            | Except.ok (v, buf3) => decodeStreamEvent fuel buf3 { e with Timestamp := v }
          else if key = ascii "GroupId" then
            match DecodeString kind buf2 with
            | Except.error err => Except.error err
            | Except.ok (v, buf3) => decodeStreamEvent fuel buf3 { e with GroupId := v }
          else Except.error (BsonError.unrecognizedTag key)

/-- Modelled from the spec: the custom decoder of `StreamEvent` (the method
`UnmarshalBson` that `bson.Unmarshal` calls) is absent from the sources.  It
skips the document length, runs the closed-schema check, and only then runs
the field loop on `into`; the number of bytes left bounds the turns of both.
A failure returns no value, so nothing is partially populated. -/
def StreamEvent.UnmarshalBson (buf : List Byte) (into : StreamEvent) :
    Except BsonError StreamEvent :=
  match Next 4 buf with
  | Except.error err => Except.error err
  | Except.ok (_, buf1) =>
    match checkKeys buf1.length buf1 with
    | Except.error err => Except.error err
    | Except.ok _ =>
      match decodeStreamEvent buf1.length buf1 into with
      | Except.error err => Except.error err
      | Except.ok (e, _) => Except.ok e

/-- A string the format carries: shorter than 2^31 bytes. -/
def fitsString (s : GoString) : Prop := s.length < 2 ^ 31

/-- A Go `int` the format carries: it fits 32 bits. -/
def fitsInt32 (i : Int) : Prop := -2 ^ 31 ≤ i ∧ i < 2 ^ 31

/-- A number that is a Go `int64`. -/
def fitsInt64 (i : Int) : Prop := -2 ^ 63 ≤ i ∧ i < 2 ^ 63

/-- A number that is a Go `uint64`. -/
def fitsUint64 (n : Nat) : Prop := n < 2 ^ 64

/-- An interface value the format carries: nil, a string shorter than 2^31
bytes, an `int` of 32 bits, an `int64`, or a `uint64`. -/
def Value.Conformant : Value → Prop
  | Value.nil => True
  | Value.string s => fitsString s
  | Value.int i => fitsInt32 i
  | Value.int64 i => fitsInt64 i
  | Value.uint64 n => fitsUint64 n

/-- A value of a static type that the format carries: strings and integers
fit their length and width, and the encoding of a slice that is not nil is
shorter than 2^31 bytes. -/
def Ty.Conformant : (t : Ty) → t.denote → Prop
  | Ty.string, v => fitsString v
  | Ty.int, v => fitsInt32 v
  | Ty.int64, v => fitsInt64 v
  | Ty.uint64, v => fitsUint64 v
  | Ty.iface, v => Value.Conformant v
  | Ty.slice t, v =>
    match (v : Slice t.denote) with
    | Slice.nil => True
    | Slice.mk xs =>
      (∀ x ∈ xs, Ty.Conformant t x)
      ∧ 4 + (encodeElems (EncodeField t) 0 xs).length + 1 < 2 ^ 31

/-- A value whose encoding parses: every string in it, and the encoding of
every slice that is not nil, is shorter than 2^31 bytes, so that its length
field holds its length.  Integers are not restricted. -/
def Ty.Sized : (t : Ty) → t.denote → Prop
  | Ty.string, v => fitsString v
  | Ty.int, _ => True
  | Ty.int64, _ => True
  | Ty.uint64, _ => True
  | Ty.iface, v =>
    match (v : Value) with
    | Value.string s => fitsString s
    | _ => True
  | Ty.slice t, v =>
    match (v : Slice t.denote) with
    | Slice.nil => True
    | Slice.mk xs => 4 + (encodeElems (EncodeField t) 0 xs).length + 1 < 2 ^ 31

/-- A field of a well-formed document: its name has no zero byte, as the name
of a Go struct field, and its value is sized. -/
def Field.WellFormed (f : Field) : Prop :=
  (∀ b ∈ f.name, b ≠ 0) ∧ Ty.Sized f.ty f.val

/-- A struct whose encoding is a well-formed document: every field is well
formed. -/
def WellFormed (fs : List Field) : Prop := ∀ f ∈ fs, f.WellFormed

/-- A conformant `StreamEvent`: the value of every field is conformant for
the declared type of the field. -/
def StreamEvent.Conformant (e : StreamEvent) : Prop :=
  ∀ f ∈ e.toReflect.fields, Ty.Conformant f.ty f.val

/-- The first field of a struct whose name `StreamEvent` does not declare. -/
def firstUndeclared : List Field → Option Field
  | [] => none
  | f :: fs => if f.name ∈ declaredNames then firstUndeclared fs else some f

instance (s : GoString) : Decidable (fitsString s) := by
  unfold fitsString
  infer_instance

instance (i : Int) : Decidable (fitsInt32 i) := by
  unfold fitsInt32
  infer_instance

instance (i : Int) : Decidable (fitsInt64 i) := by
  unfold fitsInt64
  infer_instance

instance (n : Nat) : Decidable (fitsUint64 n) := by
  unfold fitsUint64
  infer_instance

instance (v : Value) : Decidable v.Conformant := by
  cases v <;> (unfold Value.Conformant; infer_instance)

/-- Conformance of a value to its static type can be computed. -/
def Ty.decConformant : (t : Ty) → (v : t.denote) → Decidable (Ty.Conformant t v)
  | Ty.string, v => by unfold Ty.Conformant; infer_instance
  | Ty.int, v => by unfold Ty.Conformant; infer_instance
  | Ty.int64, v => by unfold Ty.Conformant; infer_instance
  | Ty.uint64, v => by unfold Ty.Conformant; infer_instance
  | Ty.iface, v => by unfold Ty.Conformant; infer_instance
  | Ty.slice t, v =>
    match v with
    | Slice.nil => isTrue (by unfold Ty.Conformant; trivial)
    | Slice.mk xs =>
      have : ∀ x, Decidable (Ty.Conformant t x) := fun x => Ty.decConformant t x
      by unfold Ty.Conformant; exact inferInstanceAs (Decidable (_ ∧ _))

instance (t : Ty) (v : t.denote) : Decidable (Ty.Conformant t v) := Ty.decConformant t v

/-- Whether a value is sized can be computed. -/
def Ty.decSized : (t : Ty) → (v : t.denote) → Decidable (Ty.Sized t v)
  | Ty.string, v => by unfold Ty.Sized; infer_instance
  | Ty.int, v => by unfold Ty.Sized; infer_instance
  | Ty.int64, v => by unfold Ty.Sized; infer_instance
  | Ty.uint64, v => by unfold Ty.Sized; infer_instance
  | Ty.iface, v =>
    match v with
    | Value.nil => isTrue (by unfold Ty.Sized; trivial)
    | Value.string s => by unfold Ty.Sized; exact inferInstanceAs (Decidable (fitsString s))
    | Value.int _ => isTrue (by unfold Ty.Sized; trivial)
    | Value.int64 _ => isTrue (by unfold Ty.Sized; trivial)
    | Value.uint64 _ => isTrue (by unfold Ty.Sized; trivial)
  | Ty.slice t, v =>
    match v with
    | Slice.nil => isTrue (by unfold Ty.Sized; trivial)
    | Slice.mk xs => by unfold Ty.Sized; exact inferInstanceAs (Decidable (_ < _))

instance (t : Ty) (v : t.denote) : Decidable (Ty.Sized t v) := Ty.decSized t v

instance (f : Field) : Decidable f.WellFormed := by
  unfold Field.WellFormed
  infer_instance

instance (fs : List Field) : Decidable (WellFormed fs) := by
  unfold WellFormed
  infer_instance

instance (e : StreamEvent) : Decidable e.Conformant := by
  unfold StreamEvent.Conformant
  infer_instance

/-- A property of every element of a slice; it holds of the nil slice. -/
def Slice.All {α : Type} (P : α → Prop) : Slice α → Prop
  | Slice.nil => True
  | Slice.mk xs => ∀ x ∈ xs, P x

/-- An element encoder and decoder agree on the values satisfying `P`: the
encoding is a prefix with a kind other than the end marker followed by a
payload, and the decoder reads the value back from the payload and stops
right after it. -/
def ElemOK {α : Type} (enc : GoString → α → List Byte) (dec : Byte → List Byte → Dec α)
    (P : α → Prop) : Prop :=
  ∀ (key : GoString) (x : α), P x →
    ∃ (kind : Byte) (payload : List Byte), kind ≠ EOO ∧
      enc key x = EncodePrefix kind key ++ payload ∧
      ∀ rest : List Byte, dec kind (payload ++ rest) = Except.ok (x, rest)

end bson

/-! ## Part I, theorems: the dialer registry -/

namespace vtgateconn

theorem RegisterDialer_dialers_present (s : Package) (name : String) (dialer d0 : DialerFunc)
    (h : s.dialers name = some d0) :
    (RegisterDialer s name dialer).dialers = s.dialers := by
  simp [RegisterDialer, h]

theorem RegisterDialer_dialers_absent (s : Package) (name : String) (dialer : DialerFunc)
    (h : s.dialers name = none) :
    (RegisterDialer s name dialer).dialers =
      fun k => if k = name then some dialer else s.dialers k := by
  simp [RegisterDialer, h]

/-- An entry that is present stays as it is under any further call. -/
theorem RegisterDialer_keeps (s : Package) (name : String) (dialer : DialerFunc)
    (k : String) (x : DialerFunc) (h : s.dialers k = some x) :
    (RegisterDialer s name dialer).dialers k = some x := by
  cases hn : s.dialers name with
  | some d0 => rw [RegisterDialer_dialers_present s name dialer d0 hn]; exact h
  | none =>
    rw [RegisterDialer_dialers_absent s name dialer hn]
    have hne : k ≠ name := by
      intro hk
      rw [hk, hn] at h
      cases h
    simp [hne, h]

theorem registerAll_keeps (calls : List (String × DialerFunc)) :
    ∀ (s : Package) (k : String) (x : DialerFunc), s.dialers k = some x →
      (registerAll s calls).dialers k = some x := by
  induction calls with
  | nil => intro s k x h; exact h
  | cons c rest ih =>
    intro s k x h
    obtain ⟨n, d⟩ := c
    exact ih _ k x (RegisterDialer_keeps s n d k x h)

/-- The map after a run of calls: old entries win, then the first call. -/
theorem registerAll_dialers (calls : List (String × DialerFunc)) :
    ∀ (s : Package) (k : String),
      (registerAll s calls).dialers k =
        match s.dialers k with
        | some x => some x
        | none => firstCall k calls := by
  induction calls with
  | nil =>
    intro s k
    cases h : s.dialers k <;> simp [registerAll, firstCall, h]
  | cons c rest ih =>
    intro s k
    obtain ⟨n, d⟩ := c
    cases h : s.dialers k with
    | some x =>
      simpa using registerAll_keeps rest _ k x (RegisterDialer_keeps s n d k x h)
    | none =>
      show (registerAll (RegisterDialer s n d) rest).dialers k = firstCall k ((n, d) :: rest)
      rw [ih]
      by_cases hk : n = k
      · subst hk
        rw [RegisterDialer_dialers_absent s n d h]
        simp [firstCall]
      · have hk2 : k ≠ n := fun e => hk e.symm
        have hstep : (RegisterDialer s n d).dialers k = none := by
          cases hn : s.dialers n with
          | some d0 => rw [RegisterDialer_dialers_present s n d d0 hn]; exact h
          | none => rw [RegisterDialer_dialers_absent s n d hn]; simp [hk2, h]
        simp [hstep, firstCall, hk]

theorem registerAll_initial (calls : List (String × DialerFunc)) (k : String) :
    (registerAll initial calls).dialers k = firstCall k calls := by
  rw [registerAll_dialers]
  rfl

theorem GetDialerWithProtocol_fst (s : Package) (protocol : String) :
    (GetDialerWithProtocol s protocol).1 = (s.dialers protocol).getD DialerFunc.nil := by
  unfold GetDialerWithProtocol
  cases s.dialers protocol <;> rfl

theorem GetDialerWithProtocol_dialers (s : Package) (protocol : String) :
    (GetDialerWithProtocol s protocol).2.dialers = s.dialers := by
  unfold GetDialerWithProtocol
  cases s.dialers protocol <;> rfl

theorem firstCall_none_of_unused (k : String) (calls : List (String × DialerFunc))
    (h : ∀ c ∈ calls, c.1 ≠ k) : firstCall k calls = none := by
  induction calls with
  | nil => rfl
  | cons c rest ih =>
    obtain ⟨n, d⟩ := c
    have hn : n ≠ k := h (n, d) (List.mem_cons_self _ _)
    have hrest : ∀ c ∈ rest, c.1 ≠ k := fun c hc => h c (List.mem_cons_of_mem _ hc)
    simp [firstCall, hn, ih hrest]

/-- C1, as stated, fails: in a registry that already binds `gorpc` to a
dialer d0, registering d1 and then d2 under `gorpc` resolves to d0, not to d1. -/
theorem C1_counterexample :
    (GetDialerWithProtocol
        (RegisterDialer (RegisterDialer gorpcRegistered "gorpc" (DialerFunc.fn 1))
          "gorpc" (DialerFunc.fn 2)) "gorpc").1 = DialerFunc.fn 0
    ∧ ¬ (GetDialerWithProtocol
        (RegisterDialer (RegisterDialer gorpcRegistered "gorpc" (DialerFunc.fn 1))
          "gorpc" (DialerFunc.fn 2)) "gorpc").1 = DialerFunc.fn 1 := by
  decide

/-- C1, amended: after `RegisterDialer(name, d1)` followed by
`RegisterDialer(name, d2)`, `GetDialerWithProtocol(name)` returns d1 when
`name` was not present before the first call, and the dialer already stored
under `name` when it was. -/
theorem C1_register_twice (s : Package) (name : String) (d1 d2 : DialerFunc) :
    (GetDialerWithProtocol (RegisterDialer (RegisterDialer s name d1) name d2) name).1 =
      match s.dialers name with
      | none => d1
      | some d0 => d0 := by
  rw [GetDialerWithProtocol_fst]
  cases h : s.dialers name with
  | none =>
    have h1 : (RegisterDialer s name d1).dialers name = some d1 := by
      rw [RegisterDialer_dialers_absent s name d1 h]; simp
    rw [RegisterDialer_keeps _ name d2 name d1 h1]
    rfl
  | some d0 =>
    have h1 : (RegisterDialer s name d1).dialers name = some d0 :=
      RegisterDialer_keeps s name d1 name d0 h
    rw [RegisterDialer_keeps _ name d2 name d0 h1]
    rfl

/-- C2: when `name` is not present, `RegisterDialer(name, d)` stores d under
`name`: afterwards `name` is present with value d and
`GetDialerWithProtocol(name)` returns d. -/
theorem C2_register_absent (s : Package) (name : String) (d : DialerFunc)
    (h : s.dialers name = none) :
    (RegisterDialer s name d).dialers name = some d
    ∧ (GetDialerWithProtocol (RegisterDialer s name d) name).1 = d := by
  have h1 : (RegisterDialer s name d).dialers name = some d := by
    rw [RegisterDialer_dialers_absent s name d h]; simp
  refine ⟨h1, ?_⟩
  rw [GetDialerWithProtocol_fst, h1]
  rfl

theorem C2_register_absent_witness :
    initial.dialers "gorpc" = none
    ∧ (RegisterDialer initial "gorpc" (DialerFunc.fn 7)).dialers "gorpc" = some (DialerFunc.fn 7)
    ∧ (GetDialerWithProtocol (RegisterDialer initial "gorpc" (DialerFunc.fn 7)) "gorpc").1
        = DialerFunc.fn 7 :=
  ⟨rfl, C2_register_absent initial "gorpc" (DialerFunc.fn 7) rfl⟩

/-- C3: when `name` is already present, `RegisterDialer(name, d)` leaves the
map `dialers` exactly as it was, for every key, the entry under `name`
included; only a warning is logged. -/
theorem C3_register_present_noop (s : Package) (name : String) (d : DialerFunc)
    (h : (s.dialers name).isSome = true) :
    (RegisterDialer s name d).dialers = s.dialers
    ∧ (RegisterDialer s name d).dialers name = s.dialers name
    ∧ (RegisterDialer s name d).log = s.log ++ ["Dialer " ++ name ++ " already exists"] := by
  cases hn : s.dialers name with
  | none => rw [hn] at h; cases h
  | some d0 =>
    have hd := RegisterDialer_dialers_present s name d d0 hn
    refine ⟨hd, by rw [hd]; exact hn, ?_⟩
    simp [RegisterDialer, hn]

theorem C3_register_present_noop_witness :
    (gorpcRegistered.dialers "gorpc").isSome = true
    ∧ (RegisterDialer gorpcRegistered "gorpc" (DialerFunc.fn 5)).dialers = gorpcRegistered.dialers
    ∧ (RegisterDialer gorpcRegistered "gorpc" (DialerFunc.fn 5)).dialers "gorpc"
        = gorpcRegistered.dialers "gorpc"
    ∧ (RegisterDialer gorpcRegistered "gorpc" (DialerFunc.fn 5)).log
        = gorpcRegistered.log ++ ["Dialer " ++ "gorpc" ++ " already exists"] :=
  ⟨by decide, C3_register_present_noop gorpcRegistered "gorpc" (DialerFunc.fn 5) (by decide)⟩

/-- C4: for a protocol name that is not registered, `GetDialerWithProtocol`
returns nil, logs its warning, and leaves the map `dialers` unchanged; the
function is total, so the call cannot fail. -/
theorem C4_get_unregistered (s : Package) (name : String)
    (h : s.dialers name = none) :
    (GetDialerWithProtocol s name).1 = DialerFunc.nil
    ∧ (GetDialerWithProtocol s name).2.dialers = s.dialers
    ∧ (GetDialerWithProtocol s name).2.log =
        s.log ++ ["No dialer registered for VTGate protocol " ++ name] := by
  refine ⟨?_, GetDialerWithProtocol_dialers s name, ?_⟩
  · rw [GetDialerWithProtocol_fst, h]; rfl
  · simp [GetDialerWithProtocol, h]

theorem C4_get_unregistered_witness :
    gorpcRegistered.dialers "grpc" = none
    ∧ (GetDialerWithProtocol gorpcRegistered "grpc").1 = DialerFunc.nil
    ∧ (GetDialerWithProtocol gorpcRegistered "grpc").2.dialers = gorpcRegistered.dialers
    ∧ (GetDialerWithProtocol gorpcRegistered "grpc").2.log =
        gorpcRegistered.log ++ ["No dialer registered for VTGate protocol " ++ "grpc"] :=
  ⟨by decide, C4_get_unregistered gorpcRegistered "grpc" (by decide)⟩

/-- C5: starting from the empty registry, after any finite sequence of
`RegisterDialer` calls the entry under every name is the dialer of the first
call made with exactly that name (absent if there is none), and
`GetDialerWithProtocol` returns it (nil if absent); and in any registry, no
`RegisterDialer` call removes or replaces an entry that is present. -/
theorem C5_first_registrant_wins (calls : List (String × DialerFunc)) (name : String) :
    (registerAll initial calls).dialers name = firstCall name calls
    ∧ (GetDialerWithProtocol (registerAll initial calls) name).1
        = (firstCall name calls).getD DialerFunc.nil
    ∧ (∀ (s : Package) (n : String) (d : DialerFunc) (k : String) (x : DialerFunc),
        s.dialers k = some x → (RegisterDialer s n d).dialers k = some x) := by
  refine ⟨registerAll_initial calls name, ?_, ?_⟩
  · rw [GetDialerWithProtocol_fst, registerAll_initial]
  · intro s n d k x h
    exact RegisterDialer_keeps s n d k x h

theorem C5_first_registrant_wins_witness :
    (registerAll initial
        [("GoRPC", DialerFunc.fn 1), ("gorpc", DialerFunc.fn 2), ("gorpc", DialerFunc.fn 3)]).dialers
        "gorpc" = some (DialerFunc.fn 2)
    ∧ (GetDialerWithProtocol (registerAll initial
        [("GoRPC", DialerFunc.fn 1), ("gorpc", DialerFunc.fn 2), ("gorpc", DialerFunc.fn 3)])
        "gorpc").1 = DialerFunc.fn 2 :=
  ⟨(C5_first_registrant_wins _ "gorpc").1.trans (by decide),
    (C5_first_registrant_wins _ "gorpc").2.1.trans (by decide)⟩

/-- C6, as stated, fails for the unset flag: with the flag left at its
default `gorpc` and a dialer registered under `gorpc`, `GetDialer()` returns
that dialer, not nil. -/
theorem C6_counterexample :
    gorpcRegistered.vtgateProtocol = GoRPCProtocol
    ∧ (GetDialer gorpcRegistered).1 = DialerFunc.fn 0
    ∧ ¬ (GetDialer gorpcRegistered).1 = DialerFunc.nil := by
  decide

/-- C6, amended: for every registry state and every value p of the flag
`vtgate_protocol`, `GetDialer()` returns exactly `GetDialerWithProtocol(p)`;
when p names no registered dialer the result is nil; the flag left unset has
the value `gorpc` and resolves to whatever is registered under `gorpc`, nil
when nothing is. -/
theorem C6_get_dialer_default (s : Package) (p : String) :
    GetDialer { s with vtgateProtocol := p }
        = GetDialerWithProtocol { s with vtgateProtocol := p } p
    ∧ (s.dialers p = none → (GetDialer { s with vtgateProtocol := p }).1 = DialerFunc.nil)
    ∧ initial.vtgateProtocol = "gorpc"
    ∧ (GetDialer { s with vtgateProtocol := GoRPCProtocol }).1
        = (s.dialers "gorpc").getD DialerFunc.nil := by
  refine ⟨rfl, ?_, rfl, ?_⟩
  · intro h
    show (GetDialerWithProtocol { s with vtgateProtocol := p } p).1 = DialerFunc.nil
    rw [GetDialerWithProtocol_fst]
    show (s.dialers p).getD DialerFunc.nil = DialerFunc.nil
    rw [h]
    rfl
  · show (GetDialerWithProtocol { s with vtgateProtocol := GoRPCProtocol } GoRPCProtocol).1 = _
    rw [GetDialerWithProtocol_fst]
    rfl

theorem C6_get_dialer_default_witness :
    gorpcRegistered.dialers "grpc" = none
    ∧ (GetDialer { gorpcRegistered with vtgateProtocol := "grpc" }).1 = DialerFunc.nil :=
  ⟨by decide, (C6_get_dialer_default gorpcRegistered "grpc").2.1 (by decide)⟩

/-- C7, as stated, fails: from the empty registry, the single call
`RegisterDialer("", d)` stores d under the empty name. -/
theorem C7_counterexample :
    (registerAll initial [("", DialerFunc.fn 1)]).dialers "" = some (DialerFunc.fn 1) := by
  decide

/-- C7, amended: starting from the empty registry, after any sequence of
`RegisterDialer` calls none of which passes the empty name, no entry is
stored under the empty name. -/
theorem C7_no_empty_key (calls : List (String × DialerFunc))
    (h : ∀ c ∈ calls, c.1 ≠ "") :
    (registerAll initial calls).dialers "" = none := by
  rw [registerAll_initial]
  exact firstCall_none_of_unused "" calls h

theorem C7_no_empty_key_witness :
    (∀ c ∈ [("gorpc", DialerFunc.fn 1), ("grpc", DialerFunc.fn 2)], c.1 ≠ "")
    ∧ (registerAll initial [("gorpc", DialerFunc.fn 1), ("grpc", DialerFunc.fn 2)]).dialers ""
        = none :=
  ⟨by decide, C7_no_empty_key _ (by decide)⟩

end vtgateconn

/-! ## Part II, theorems: the StreamEvent codec -/

namespace bson

theorem byte_val (n : Nat) : (byte n).val = n % 256 := rfl

theorem Next_append (xs rest : List Byte) :
    Next xs.length (xs ++ rest) = Except.ok (xs, rest) := by
  induction xs with
  | nil => cases rest <;> rfl
  | cons x xs ih => simp [Next, ih]

theorem ReadCString_append (key rest : List Byte) (h : ∀ b ∈ key, b ≠ 0) :
    ReadCString (key ++ 0 :: rest) = Except.ok (key, rest) := by
  induction key with
  | nil => simp [ReadCString]
  | cons x xs ih =>
    have hx : x ≠ 0 := h x (List.mem_cons_self _ _)
    have hxs : ∀ b ∈ xs, b ≠ 0 := fun b hb => h b (List.mem_cons_of_mem _ hb)
    simp [ReadCString, hx, ih hxs]

theorem leNat_putUint32 (n : Nat) : leNat (putUint32 n) = n % 2 ^ 32 := by
  simp only [putUint32, leNat, byte_val]
  omega

theorem leNat_putUint64 (n : Nat) : leNat (putUint64 n) = n % 2 ^ 64 := by
  simp only [putUint64, leNat, byte_val]
  omega

theorem Next_putUint32 (n : Nat) (rest : List Byte) :
    Next 4 (putUint32 n ++ rest) = Except.ok (putUint32 n, rest) :=
  Next_append (putUint32 n) rest

theorem Next_putUint64 (n : Nat) (rest : List Byte) :
    Next 8 (putUint64 n ++ rest) = Except.ok (putUint64 n, rest) :=
  Next_append (putUint64 n) rest

theorem Pint32_putUint32 (n : Nat) (rest : List Byte) (h : n < 2 ^ 31) :
    Pint32 (putUint32 n ++ rest) = Except.ok ((n : Int), rest) := by
  simp only [Pint32, Next_putUint32, leNat_putUint32]
  congr 2
  split <;> omega

theorem Pint32_int (i : Int) (rest : List Byte) (h : fitsInt32 i) :
    Pint32 (putUint32 (i % 2 ^ 32).toNat ++ rest) = Except.ok (i, rest) := by
  obtain ⟨hlo, hhi⟩ := h
  simp only [Pint32, Next_putUint32, leNat_putUint32]
  congr 2
  split <;> omega

theorem Pint64_putUint64 (i : Int) (rest : List Byte) (h : fitsInt64 i) :
    Pint64 (putUint64 (i % 2 ^ 64).toNat ++ rest) = Except.ok (i, rest) := by
  obtain ⟨hlo, hhi⟩ := h
  simp only [Pint64, Next_putUint64, leNat_putUint64]
  congr 2
  split <;> omega

theorem Puint64_putUint64 (n : Nat) (rest : List Byte) (h : fitsUint64 n) :
    Puint64 (putUint64 n ++ rest) = Except.ok (n, rest) := by
  simp only [Puint64, Next_putUint64, leNat_putUint64]
  congr 2
  exact Nat.mod_eq_of_lt h

theorem readBinary_payload (s rest : List Byte) (h : fitsString s) :
    readBinary (putUint32 s.length ++ [0] ++ s ++ rest) = Except.ok (s, rest) := by
  have e : putUint32 s.length ++ [0] ++ s ++ rest
      = putUint32 s.length ++ (0 :: (s ++ rest)) := by simp
  rw [e]
  simp [readBinary, Pint32_putUint32 _ _ h, NextByte, Next_append]

theorem digitChar_ne_zero : ∀ d < 10, byte (Nat.digitChar d).toNat ≠ 0 := by
  decide

theorem toDigitsCore_ne_zero (fuel : Nat) :
    ∀ (n : Nat) (acc : List Char), (∀ c ∈ acc, byte c.toNat ≠ 0) →
      ∀ c ∈ Nat.toDigitsCore 10 fuel n acc, byte c.toNat ≠ 0 := by
  induction fuel with
  | zero => intro n acc h; simpa [Nat.toDigitsCore] using h
  | succ fuel ih =>
    intro n acc h
    have hacc : ∀ c ∈ Nat.digitChar (n % 10) :: acc, byte c.toNat ≠ 0 := by
      intro c hc
      rcases List.mem_cons.mp hc with rfl | hc
      · exact digitChar_ne_zero _ (Nat.mod_lt n (by decide))
      · exact h c hc
    simp only [Nat.toDigitsCore]
    split
    · exact hacc
    · exact ih _ _ hacc

theorem Itoa_ne_zero (i : Nat) : ∀ b ∈ Itoa i, b ≠ 0 := by
  intro b hb
  simp only [Itoa, List.mem_map] at hb
  obtain ⟨c, hc, rfl⟩ := hb
  exact toDigitsCore_ne_zero _ _ [] (by simp) c hc

theorem declaredNames_ne_zero : ∀ key ∈ declaredNames, ∀ b ∈ key, b ≠ 0 := by decide

theorem ElemOK_string : ElemOK EncodeString DecodeString fitsString := by
  intro key s hs
  refine ⟨Binary, putUint32 s.length ++ [0] ++ s, by decide, ?_, ?_⟩
  · simp [EncodeString, List.append_assoc]
  · intro rest
    simp only [DecodeString, if_true]
    exact readBinary_payload s rest hs

theorem ElemOK_int64 : ElemOK EncodeInt64 DecodeInt64 fitsInt64 := by
  intro key i hi
  refine ⟨Long, putUint64 (Int.toNat (i % 2 ^ 64)), by decide, rfl, ?_⟩
  intro rest
  simp only [DecodeInt64, if_true]
  exact Pint64_putUint64 i rest hi

theorem ElemOK_interface : ElemOK EncodeInterface DecodeInterface Value.Conformant := by
  intro key v hv
  cases v with
  | nil =>
    refine ⟨Null, [], by decide, by simp [EncodeInterface], ?_⟩
    intro rest
    simp [DecodeInterface]
  | string s =>
    refine ⟨Binary, putUint32 s.length ++ [0] ++ s, by decide, ?_, ?_⟩
    · simp [EncodeInterface, EncodeString, List.append_assoc]
    · intro rest
      have h1 : Binary ≠ Null := by decide
      simp only [DecodeInterface, if_true, if_neg h1]
      rw [readBinary_payload s rest hv]
  | int i =>
    refine ⟨Int32, putUint32 (Int.toNat (i % 2 ^ 32)), by decide, rfl, ?_⟩
    intro rest
    have h1 : Int32 ≠ Null := by decide
    have h2 : Int32 ≠ Binary := by decide
    simp only [DecodeInterface, if_true, if_neg h1, if_neg h2]
    rw [Pint32_int i rest hv]
  | int64 i =>
    refine ⟨Long, putUint64 (Int.toNat (i % 2 ^ 64)), by decide, rfl, ?_⟩
    intro rest
    have h1 : Long ≠ Null := by decide
    have h2 : Long ≠ Binary := by decide
    have h3 : Long ≠ Int32 := by decide
    simp only [DecodeInterface, if_true, if_neg h1, if_neg h2, if_neg h3]
    rw [Pint64_putUint64 i rest hv]
  | uint64 n =>
    refine ⟨Ulong, putUint64 n, by decide, rfl, ?_⟩
    intro rest
    have h1 : Ulong ≠ Null := by decide
    have h2 : Ulong ≠ Binary := by decide
    have h3 : Ulong ≠ Int32 := by decide
    have h4 : Ulong ≠ Long := by decide
    simp only [DecodeInterface, if_true, if_neg h1, if_neg h2, if_neg h3, if_neg h4]
    rw [Puint64_putUint64 n rest hv]

theorem encodeElems_length {α : Type} (enc : GoString → α → List Byte)
    (dec : Byte → List Byte → Dec α) (P : α → Prop) (hok : ElemOK enc dec P)
    (xs : List α) : ∀ (i : Nat), (∀ x ∈ xs, P x) →
      xs.length ≤ (encodeElems enc i xs).length := by
  induction xs with
  | nil => intro i _; simp
  | cons x xs ih =>
    intro i h
    obtain ⟨kind, payload, _, henc, _⟩ := hok (Itoa i) x (h x (List.mem_cons_self _ _))
    have hrest := ih (i + 1) (fun y hy => h y (List.mem_cons_of_mem _ hy))
    simp only [encodeElems, henc, EncodePrefix, List.length_append, List.length_cons]
    omega

theorem decodeElems_encodeElems {α : Type} (enc : GoString → α → List Byte)
    (dec : Byte → List Byte → Dec α) (P : α → Prop) (hok : ElemOK enc dec P)
    (xs : List α) : ∀ (i fuel : Nat) (acc : List α) (rest : List Byte),
      (∀ x ∈ xs, P x) → xs.length < fuel →
      decodeElems dec fuel (encodeElems enc i xs ++ EOO :: rest) acc
        = Except.ok (acc ++ xs, rest) := by
  induction xs with
  | nil =>
    intro i fuel acc rest _ hfuel
    obtain ⟨f, rfl⟩ : ∃ f, fuel = f + 1 := ⟨fuel - 1, by simp at hfuel; omega⟩
    simp [encodeElems, decodeElems, NextByte]
  | cons x xs ih =>
    intro i fuel acc rest h hfuel
    obtain ⟨f, rfl⟩ : ∃ f, fuel = f + 1 := ⟨fuel - 1, by simp at hfuel; omega⟩
    obtain ⟨kind, payload, hkind, henc, hdec⟩ := hok (Itoa i) x (h x (List.mem_cons_self _ _))
    have hshape : encodeElems enc i (x :: xs) ++ EOO :: rest
        = kind :: (Itoa i ++ 0 :: (payload ++ (encodeElems enc (i + 1) xs ++ EOO :: rest))) := by
      simp [encodeElems, henc, EncodePrefix, List.append_assoc]
    have hrec := ih (i + 1) f (acc ++ [x]) rest
      (fun y hy => h y (List.mem_cons_of_mem _ hy)) (by simp at hfuel; omega)
    rw [hshape]
    simp only [decodeElems, NextByte, if_neg hkind,
      ReadCString_append _ _ (Itoa_ne_zero i), hdec, hrec]
    simp

theorem ElemOK_array {α : Type} (enc : GoString → α → List Byte)
    (dec : Byte → List Byte → Dec α) (P : α → Prop) (hok : ElemOK enc dec P) :
    ElemOK (encodeArray enc) (DecodeArray dec) (Slice.All P) := by
  intro key s hs
  cases s with
  | nil =>
    refine ⟨Null, [], by decide, by simp [encodeArray], ?_⟩
    intro rest
    simp [DecodeArray]
  | mk xs =>
    have hxs : ∀ x ∈ xs, P x := hs
    refine ⟨Array, lenWriter (encodeElems enc 0 xs), by decide, rfl, ?_⟩
    intro rest
    have hshape : lenWriter (encodeElems enc 0 xs) ++ rest
        = putUint32 (4 + (encodeElems enc 0 xs).length + 1)
            ++ (encodeElems enc 0 xs ++ EOO :: rest) := by
      simp [lenWriter, List.append_assoc]
    have hlen := encodeElems_length enc dec P hok xs 0 hxs
    have h1 : Array ≠ Null := by decide
    rw [hshape]
    simp only [DecodeArray, if_true, if_neg h1, Next_putUint32]
    rw [decodeElems_encodeElems enc dec P hok xs 0 _ [] rest hxs
      (by simp only [List.length_append, List.length_cons]; omega)]
    simp

theorem encodePKColNames_eq (xs : List GoString) :
    ∀ i : Nat, encodePKColNames i xs = encodeElems EncodeString i xs := by
  induction xs with
  | nil => intro i; rfl
  | cons x xs ih => intro i; simp [encodePKColNames, encodeElems, ih]

theorem encodePKRow_eq (xs : List Value) :
    ∀ i : Nat, encodePKRow i xs = encodeElems EncodeInterface i xs := by
  induction xs with
  | nil => intro i; rfl
  | cons x xs ih => intro i; simp [encodePKRow, encodeElems, ih]

theorem encodePKValues_eq (rows : List (Slice Value)) :
    ∀ i : Nat, encodePKValues i rows = encodeElems (encodeArray EncodeInterface) i rows := by
  induction rows with
  | nil => intro i; rfl
  | cons row rows ih =>
    intro i
    cases row with
    | nil => simp [encodePKValues, encodeElems, encodeArray, ih]
    | mk r => simp [encodePKValues, encodeElems, encodeArray, ih, encodePKRow_eq]

/-- The fields of a `StreamEvent` as the reflective encoder writes them. -/
theorem encodeFields_streamEvent (e : StreamEvent) :
    encodeFields e.toReflect.fields =
      EncodeString (ascii "Category") e.Category
        ++ (EncodeString (ascii "TableName") e.TableName
        ++ (encodeArray EncodeString (ascii "PKColNames") e.PKColNames
        ++ (encodeArray (encodeArray EncodeInterface) (ascii "PKValues") e.PKValues
        ++ (EncodeString (ascii "Sql") e.Sql
        ++ (EncodeInt64 (ascii "Timestamp") e.Timestamp
        ++ (EncodeString (ascii "GroupId") e.GroupId ++ [])))))) := rfl

/-- The custom encoder and the reflective encoder write the same bytes. -/
theorem MarshalBson_eq_MarshalStruct (e : StreamEvent) :
    e.MarshalBson = MarshalStruct e.toReflect.fields := by
  rw [MarshalStruct, encodeFields_streamEvent]
  have h1 : (match e.PKColNames with
      | Slice.nil => EncodePrefix Null (ascii "PKColNames")
      | Slice.mk names =>
        EncodePrefix Array (ascii "PKColNames") ++ lenWriter (encodePKColNames 0 names))
      = encodeArray EncodeString (ascii "PKColNames") e.PKColNames := by
    cases e.PKColNames <;> simp [encodeArray, encodePKColNames_eq]
  have h2 : (match e.PKValues with
      | Slice.nil => EncodePrefix Null (ascii "PKValues")
      | Slice.mk rows =>
        EncodePrefix Array (ascii "PKValues") ++ lenWriter (encodePKValues 0 rows))
      = encodeArray (encodeArray EncodeInterface) (ascii "PKValues") e.PKValues := by
    cases e.PKValues <;> simp [encodeArray, encodePKValues_eq]
  simp only [StreamEvent.MarshalBson, h1, h2, List.append_assoc, List.append_nil]

theorem EncodeString_shape (key s : GoString) :
    EncodeString key s = EncodePrefix Binary key ++ (putUint32 s.length ++ [0] ++ s) := by
  simp [EncodeString, List.append_assoc]

theorem EncodeField_shape (t : Ty) (key : GoString) (v : t.denote) :
    ∃ (kind : Byte) (payload : List Byte), kind ≠ EOO ∧
      EncodeField t key v = EncodePrefix kind key ++ payload := by
  cases t with
  | string => exact ⟨Binary, _, by decide, EncodeString_shape key v⟩
  | int => exact ⟨Int32, _, by decide, rfl⟩
  | int64 => exact ⟨Long, _, by decide, rfl⟩
  | uint64 => exact ⟨Ulong, _, by decide, rfl⟩
  | iface =>
    cases v with
    | nil => exact ⟨Null, [], by decide, by simp [EncodeField, EncodeInterface]⟩
    | string s => exact ⟨Binary, _, by decide, EncodeString_shape key s⟩
    | int i => exact ⟨Int32, _, by decide, rfl⟩
    | int64 i => exact ⟨Long, _, by decide, rfl⟩
    | uint64 n => exact ⟨Ulong, _, by decide, rfl⟩
  | slice t =>
    cases v with
    | nil => exact ⟨Null, [], by decide, by simp [EncodeField, encodeArray]⟩
    | mk xs => exact ⟨Array, _, by decide, rfl⟩

theorem encodeFields_length (fs : List Field) : fs.length ≤ (encodeFields fs).length := by
  induction fs with
  | nil => simp
  | cons f fs ih =>
    obtain ⟨kind, payload, _, henc⟩ := EncodeField_shape f.ty f.name f.val
    simp only [encodeFields, henc, EncodePrefix, List.length_append, List.length_cons]
    omega

theorem encodeFields_append (fs gs : List Field) :
    encodeFields (fs ++ gs) = encodeFields fs ++ encodeFields gs := by
  induction fs with
  | nil => rfl
  | cons f fs ih => simp [encodeFields, ih, List.append_assoc]

theorem skipValue_binary (s rest : List Byte) (h : fitsString s) :
    skipValue Binary (putUint32 s.length ++ [0] ++ s ++ rest) = Except.ok ((), rest) := by
  have e : putUint32 s.length ++ [0] ++ s ++ rest
      = putUint32 s.length ++ (0 :: (s ++ rest)) := by simp
  have h1 : Binary ≠ Null := by decide
  have hn : Next (s.length + 1) (0 :: (s ++ rest)) = Except.ok (0 :: s, rest) :=
    Next_append (0 :: s) rest
  have hl : ¬ ((s.length : Nat) : Int) < 0 := by omega
  rw [e]
  simp only [skipValue, if_neg h1, if_true, Pint32_putUint32 _ _ h, if_neg hl,
    Int.toNat_ofNat, hn]

theorem skipValue_int32 (n : Nat) (rest : List Byte) :
    skipValue Int32 (putUint32 n ++ rest) = Except.ok ((), rest) := by
  have h1 : Int32 ≠ Null := by decide
  have h2 : Int32 ≠ Binary := by decide
  simp only [skipValue, if_neg h1, if_neg h2, if_true, Next_putUint32]

theorem skipValue_long (n : Nat) (rest : List Byte) :
    skipValue Long (putUint64 n ++ rest) = Except.ok ((), rest) := by
  have h1 : Long ≠ Null := by decide
  have h2 : Long ≠ Binary := by decide
  have h3 : Long ≠ Int32 := by decide
  simp [skipValue, h1, h2, h3, Next_putUint64]

theorem skipValue_ulong (n : Nat) (rest : List Byte) :
    skipValue Ulong (putUint64 n ++ rest) = Except.ok ((), rest) := by
  have h1 : Ulong ≠ Null := by decide
  have h2 : Ulong ≠ Binary := by decide
  have h3 : Ulong ≠ Int32 := by decide
  simp [skipValue, h1, h2, h3, Next_putUint64]

theorem skipValue_array (body rest : List Byte) (h : 4 + body.length + 1 < 2 ^ 31) :
    skipValue Array (lenWriter body ++ rest) = Except.ok ((), rest) := by
  have e : lenWriter body ++ rest
      = putUint32 (4 + body.length + 1) ++ ((body ++ [EOO]) ++ rest) := by
    simp [lenWriter, List.append_assoc]
  have h1 : Array ≠ Null := by decide
  have h2 : Array ≠ Binary := by decide
  have h3 : Array ≠ Int32 := by decide
  have h4 : ¬ (Array = Long ∨ Array = Ulong) := by decide
  have hn : Next (body.length + 1) ((body ++ [EOO]) ++ rest) = Except.ok (body ++ [EOO], rest) := by
    have := Next_append (body ++ [EOO]) rest
    simpa using this
  have hl : ¬ ((4 + body.length + 1 : Nat) : Int) < 4 := by omega
  have ht : (((4 + body.length + 1 : Nat) : Int)).toNat - 4 = body.length + 1 := by omega
  rw [e]
  simp only [skipValue, if_neg h1, if_neg h2, if_neg h3, if_neg h4, if_true,
    Pint32_putUint32 _ _ h, if_neg hl, ht, hn]

/-- A sized value is passed over by `skipValue`. -/
theorem skip_EncodeField (t : Ty) (key : GoString) (v : t.denote) (hv : Ty.Sized t v) :
    ∃ (kind : Byte) (payload : List Byte), kind ≠ EOO ∧
      EncodeField t key v = EncodePrefix kind key ++ payload ∧
      ∀ rest : List Byte, skipValue kind (payload ++ rest) = Except.ok ((), rest) := by
  cases t with
  | string =>
    exact ⟨Binary, _, by decide, EncodeString_shape key v,
      fun rest => skipValue_binary v rest hv⟩
  | int => exact ⟨Int32, _, by decide, rfl, fun rest => skipValue_int32 _ rest⟩
  | int64 => exact ⟨Long, _, by decide, rfl, fun rest => skipValue_long _ rest⟩
  | uint64 => exact ⟨Ulong, _, by decide, rfl, fun rest => skipValue_ulong _ rest⟩
  | iface =>
    cases v with
    | nil =>
      exact ⟨Null, [], by decide, by simp [EncodeField, EncodeInterface],
        fun rest => by simp [skipValue]⟩
    | string s =>
      exact ⟨Binary, _, by decide, EncodeString_shape key s,
        fun rest => skipValue_binary s rest hv⟩
    | int i => exact ⟨Int32, _, by decide, rfl, fun rest => skipValue_int32 _ rest⟩
    | int64 i => exact ⟨Long, _, by decide, rfl, fun rest => skipValue_long _ rest⟩
    | uint64 n => exact ⟨Ulong, _, by decide, rfl, fun rest => skipValue_ulong _ rest⟩
  | slice t =>
    cases v with
    | nil =>
      exact ⟨Null, [], by decide, by simp [EncodeField, encodeArray],
        fun rest => by simp [skipValue]⟩
    | mk xs =>
      have hsize : 4 + (encodeElems (EncodeField t) 0 xs).length + 1 < 2 ^ 31 := by
        simpa only [Ty.Sized] using hv
      exact ⟨Array, lenWriter (encodeElems (EncodeField t) 0 xs), by decide, rfl,
        fun rest => skipValue_array _ rest hsize⟩

theorem checkKeys_end (fuel : Nat) (rest : List Byte) :
    checkKeys (fuel + 1) (EOO :: rest) = Except.ok () := by
  simp [checkKeys, NextByte]

theorem checkKeys_step (fuel : Nat) (f : Field) (rest : List Byte)
    (hname : f.name ∈ declaredNames) (hv : Ty.Sized f.ty f.val) :
    checkKeys (fuel + 1) (EncodeField f.ty f.name f.val ++ rest) = checkKeys fuel rest := by
  obtain ⟨kind, payload, hk, henc, hskip⟩ := skip_EncodeField f.ty f.name f.val hv
  have hshape : EncodePrefix kind f.name ++ payload ++ rest
      = kind :: (f.name ++ 0 :: (payload ++ rest)) := by
    simp [EncodePrefix]
  rw [henc, hshape]
  simp only [checkKeys, NextByte, if_neg hk,
    ReadCString_append _ _ (declaredNames_ne_zero f.name hname), if_pos hname, hskip]

theorem checkKeys_declared (pre : List Field)
    (hpre : ∀ f ∈ pre, f.name ∈ declaredNames ∧ Ty.Sized f.ty f.val) :
    ∀ (fuel : Nat) (rest : List Byte),
      checkKeys (fuel + pre.length) (encodeFields pre ++ rest) = checkKeys fuel rest := by
  induction pre with
  | nil => intro fuel rest; rfl
  | cons f fs ih =>
    intro fuel rest
    obtain ⟨hn, hv⟩ := hpre f (List.mem_cons_self _ _)
    have h1 := checkKeys_step (fuel + fs.length) f (encodeFields fs ++ rest) hn hv
    have h2 := ih (fun g hg => hpre g (List.mem_cons_of_mem _ hg)) fuel rest
    rw [← h2, ← h1]
    simp [encodeFields, List.append_assoc, Nat.add_assoc]

theorem checkKeys_unknown (fuel : Nat) (x : Field) (tail : List Byte)
    (hzero : ∀ b ∈ x.name, b ≠ 0) (hx : x.name ∉ declaredNames) :
    checkKeys (fuel + 1) (EncodeField x.ty x.name x.val ++ tail)
      = Except.error (BsonError.unrecognizedTag x.name) := by
  obtain ⟨kind, payload, hk, henc⟩ := EncodeField_shape x.ty x.name x.val
  have hshape : EncodePrefix kind x.name ++ payload ++ tail
      = kind :: (x.name ++ 0 :: (payload ++ tail)) := by
    simp [EncodePrefix]
  rw [henc, hshape]
  simp only [checkKeys, NextByte, if_neg hk, ReadCString_append _ _ hzero, if_neg hx]

theorem firstUndeclared_split (fs : List Field) :
    ∀ x : Field, firstUndeclared fs = some x →
      ∃ pre post : List Field, fs = pre ++ x :: post
        ∧ (∀ f ∈ pre, f.name ∈ declaredNames) ∧ x.name ∉ declaredNames := by
  induction fs with
  | nil => intro x h; simp [firstUndeclared] at h
  | cons f fs ih =>
    intro x h
    by_cases hf : f.name ∈ declaredNames
    · simp only [firstUndeclared, if_pos hf] at h
      obtain ⟨pre, post, hsplit, hpre, hx⟩ := ih x h
      refine ⟨f :: pre, post, by simp [hsplit], ?_, hx⟩
      intro g hg
      rcases List.mem_cons.mp hg with rfl | hg
      · exact hf
      · exact hpre g hg
    · simp only [firstUndeclared, if_neg hf] at h
      have hxf : f = x := Option.some.inj h
      subst hxf
      exact ⟨[], fs, rfl, by simp, hf⟩

theorem firstUndeclared_exists (fs : List Field)
    (h : ∃ f ∈ fs, f.name ∉ declaredNames) : ∃ x : Field, firstUndeclared fs = some x := by
  induction fs with
  | nil => obtain ⟨f, hf, _⟩ := h; simp at hf
  | cons f fs ih =>
    by_cases hf : f.name ∈ declaredNames
    · obtain ⟨g, hg, hgn⟩ := h
      rcases List.mem_cons.mp hg with rfl | hg
      · exact absurd hf hgn
      · obtain ⟨x, hx⟩ := ih ⟨g, hg, hgn⟩
        exact ⟨x, by simp [firstUndeclared, hf, hx]⟩
    · exact ⟨f, by simp [firstUndeclared, hf]⟩

/-- One turn of the field loop on an element whose kind is not the end
marker: the key is read and the decoder is chosen by it. -/
theorem decodeStreamEvent_key (fuel : Nat) (kind : Byte) (key tail : List Byte)
    (e : StreamEvent) (hkind : kind ≠ EOO) (hkey : ∀ b ∈ key, b ≠ 0) :
    decodeStreamEvent (fuel + 1) (EncodePrefix kind key ++ tail) e =
      if key = ascii "Category" then
        match DecodeString kind tail with
        | Except.error err => Except.error err
        | Except.ok (v, buf3) => decodeStreamEvent fuel buf3 { e with Category := v }
      else if key = ascii "TableName" then
        match DecodeString kind tail with
        | Except.error err => Except.error err
        | Except.ok (v, buf3) => decodeStreamEvent fuel buf3 { e with TableName := v }
      else if key = ascii "PKColNames" then
        match DecodeArray DecodeString kind tail with
        | Except.error err => Except.error err
        | Except.ok (v, buf3) => decodeStreamEvent fuel buf3 { e with PKColNames := v }
      else if key = ascii "PKValues" then
        match DecodeArray (DecodeArray DecodeInterface) kind tail with
        | Except.error err => Except.error err
        | Except.ok (v, buf3) => decodeStreamEvent fuel buf3 { e with PKValues := v }
      else if key = ascii "Sql" then
        match DecodeString kind tail with
        | Except.error err => Except.error err
        | Except.ok (v, buf3) => decodeStreamEvent fuel buf3 { e with Sql := v }
      else if key = ascii "Timestamp" then
        match DecodeInt64 kind tail with
        | Except.error err => Except.error err
        | Except.ok (v, buf3) => decodeStreamEvent fuel buf3 { e with Timestamp := v }
      else if key = ascii "GroupId" then
        match DecodeString kind tail with
        | Except.error err => Except.error err
        | Except.ok (v, buf3) => decodeStreamEvent fuel buf3 { e with GroupId := v }
      else Except.error (BsonError.unrecognizedTag key) := by
  have hshape : EncodePrefix kind key ++ tail = kind :: (key ++ 0 :: tail) := by
    simp [EncodePrefix]
  rw [hshape]
  simp only [decodeStreamEvent, NextByte, if_neg hkind, ReadCString_append key tail hkey]

theorem step_Category (fuel : Nat) (v : GoString) (rest : List Byte) (e : StreamEvent)
    (hv : fitsString v) :
    decodeStreamEvent (fuel + 1) (EncodeString (ascii "Category") v ++ rest) e
      = decodeStreamEvent fuel rest { e with Category := v } := by
  obtain ⟨kind, payload, hk, henc, hdec⟩ := ElemOK_string (ascii "Category") v hv
  rw [henc, List.append_assoc, decodeStreamEvent_key fuel kind _ _ e hk (by decide)]
  simp only [
    if_true, hdec]

theorem step_TableName (fuel : Nat) (v : GoString) (rest : List Byte) (e : StreamEvent)
    (hv : fitsString v) :
    decodeStreamEvent (fuel + 1) (EncodeString (ascii "TableName") v ++ rest) e
      = decodeStreamEvent fuel rest { e with TableName := v } := by
  obtain ⟨kind, payload, hk, henc, hdec⟩ := ElemOK_string (ascii "TableName") v hv
  rw [henc, List.append_assoc, decodeStreamEvent_key fuel kind _ _ e hk (by decide)]
  simp only [
    if_neg (by decide : ¬ ascii "TableName" = ascii "Category"),
    if_true, hdec]

theorem step_PKColNames (fuel : Nat) (v : Slice GoString) (rest : List Byte) (e : StreamEvent)
    (hv : Slice.All fitsString v) :
    decodeStreamEvent (fuel + 1) (encodeArray EncodeString (ascii "PKColNames") v ++ rest) e
      = decodeStreamEvent fuel rest { e with PKColNames := v } := by
  obtain ⟨kind, payload, hk, henc, hdec⟩ := (ElemOK_array _ _ _ ElemOK_string) (ascii "PKColNames") v hv
  rw [henc, List.append_assoc, decodeStreamEvent_key fuel kind _ _ e hk (by decide)]
  simp only [
    if_neg (by decide : ¬ ascii "PKColNames" = ascii "Category"),
    if_neg (by decide : ¬ ascii "PKColNames" = ascii "TableName"),
    if_true, hdec]

theorem step_PKValues (fuel : Nat) (v : Slice (Slice Value)) (rest : List Byte) (e : StreamEvent)
    (hv : Slice.All (Slice.All Value.Conformant) v) :
    decodeStreamEvent (fuel + 1) (encodeArray (encodeArray EncodeInterface) (ascii "PKValues") v ++ rest) e
      = decodeStreamEvent fuel rest { e with PKValues := v } := by
  obtain ⟨kind, payload, hk, henc, hdec⟩ := (ElemOK_array _ _ _ (ElemOK_array _ _ _ ElemOK_interface)) (ascii "PKValues") v hv
  rw [henc, List.append_assoc, decodeStreamEvent_key fuel kind _ _ e hk (by decide)]
  simp only [
    if_neg (by decide : ¬ ascii "PKValues" = ascii "Category"),
    if_neg (by decide : ¬ ascii "PKValues" = ascii "TableName"),
    if_neg (by decide : ¬ ascii "PKValues" = ascii "PKColNames"),
    if_true, hdec]

theorem step_Sql (fuel : Nat) (v : GoString) (rest : List Byte) (e : StreamEvent)
    (hv : fitsString v) :
    decodeStreamEvent (fuel + 1) (EncodeString (ascii "Sql") v ++ rest) e
      = decodeStreamEvent fuel rest { e with Sql := v } := by
  obtain ⟨kind, payload, hk, henc, hdec⟩ := ElemOK_string (ascii "Sql") v hv
  rw [henc, List.append_assoc, decodeStreamEvent_key fuel kind _ _ e hk (by decide)]
  simp only [
    if_neg (by decide : ¬ ascii "Sql" = ascii "Category"),
    if_neg (by decide : ¬ ascii "Sql" = ascii "TableName"),
    if_neg (by decide : ¬ ascii "Sql" = ascii "PKColNames"),
    if_neg (by decide : ¬ ascii "Sql" = ascii "PKValues"),
    if_true, hdec]

theorem step_Timestamp (fuel : Nat) (v : Int) (rest : List Byte) (e : StreamEvent)
    (hv : fitsInt64 v) :
    decodeStreamEvent (fuel + 1) (EncodeInt64 (ascii "Timestamp") v ++ rest) e
      = decodeStreamEvent fuel rest { e with Timestamp := v } := by
  obtain ⟨kind, payload, hk, henc, hdec⟩ := ElemOK_int64 (ascii "Timestamp") v hv
  rw [henc, List.append_assoc, decodeStreamEvent_key fuel kind _ _ e hk (by decide)]
  simp only [
    if_neg (by decide : ¬ ascii "Timestamp" = ascii "Category"),
    if_neg (by decide : ¬ ascii "Timestamp" = ascii "TableName"),
    if_neg (by decide : ¬ ascii "Timestamp" = ascii "PKColNames"),
    if_neg (by decide : ¬ ascii "Timestamp" = ascii "PKValues"),
    if_neg (by decide : ¬ ascii "Timestamp" = ascii "Sql"),
    if_true, hdec]

theorem step_GroupId (fuel : Nat) (v : GoString) (rest : List Byte) (e : StreamEvent)
    (hv : fitsString v) :
    decodeStreamEvent (fuel + 1) (EncodeString (ascii "GroupId") v ++ rest) e
      = decodeStreamEvent fuel rest { e with GroupId := v } := by
  obtain ⟨kind, payload, hk, henc, hdec⟩ := ElemOK_string (ascii "GroupId") v hv
  rw [henc, List.append_assoc, decodeStreamEvent_key fuel kind _ _ e hk (by decide)]
  simp only [
    if_neg (by decide : ¬ ascii "GroupId" = ascii "Category"),
    if_neg (by decide : ¬ ascii "GroupId" = ascii "TableName"),
    if_neg (by decide : ¬ ascii "GroupId" = ascii "PKColNames"),
    if_neg (by decide : ¬ ascii "GroupId" = ascii "PKValues"),
    if_neg (by decide : ¬ ascii "GroupId" = ascii "Sql"),
    if_neg (by decide : ¬ ascii "GroupId" = ascii "Timestamp"),
    if_true, hdec]

theorem conformant_strings (v : Slice GoString)
    (h : Ty.Conformant (Ty.slice Ty.string) v) : Slice.All fitsString v := by
  cases v with
  | nil => trivial
  | mk xs =>
    simp only [Ty.Conformant] at h
    exact h.1

theorem conformant_row (row : Slice Value)
    (h : Ty.Conformant (Ty.slice Ty.iface) row) : Slice.All Value.Conformant row := by
  cases row with
  | nil => trivial
  | mk xs =>
    simp only [Ty.Conformant] at h
    exact h.1

theorem conformant_rows (v : Slice (Slice Value))
    (h : Ty.Conformant (Ty.slice (Ty.slice Ty.iface)) v) :
    Slice.All (Slice.All Value.Conformant) v := by
  cases v with
  | nil => trivial
  | mk rows =>
    have h1 : ∀ row ∈ rows, Ty.Conformant (Ty.slice Ty.iface) row := by
      rw [Ty.Conformant] at h
      exact h.1
    intro row hrow
    exact conformant_row row (h1 row hrow)

theorem conformant_sized (t : Ty) (v : t.denote) (h : Ty.Conformant t v) : Ty.Sized t v := by
  cases t with
  | string => exact h
  | int => trivial
  | int64 => trivial
  | uint64 => trivial
  | iface =>
    cases v with
    | string s => exact h
    | nil => trivial
    | int i => trivial
    | int64 i => trivial
    | uint64 n => trivial
  | slice t =>
    cases v with
    | nil => trivial
    | mk xs =>
      simp only [Ty.Conformant] at h
      simpa only [Ty.Sized] using h.2

theorem fields_declared (e : StreamEvent) :
    ∀ f ∈ e.toReflect.fields, f.name ∈ declaredNames := by
  intro f hf
  simp only [reflectStreamEvent.fields, List.mem_cons, List.mem_singleton, List.not_mem_nil,
    or_false] at hf
  rcases hf with rfl | rfl | rfl | rfl | rfl | rfl | rfl <;>
    (dsimp only; decide)

/-- The seven declared fields, written in order, are read back in seven
turns of the field loop. -/
theorem decode_body (v : StreamEvent) (hv : v.Conformant) (fuel : Nat) (rest : List Byte)
    (e : StreamEvent) :
    decodeStreamEvent (fuel + 1 + 1 + 1 + 1 + 1 + 1 + 1)
      (EncodeString (ascii "Category") v.Category
        ++ (EncodeString (ascii "TableName") v.TableName
        ++ (encodeArray EncodeString (ascii "PKColNames") v.PKColNames
        ++ (encodeArray (encodeArray EncodeInterface) (ascii "PKValues") v.PKValues
        ++ (EncodeString (ascii "Sql") v.Sql
        ++ (EncodeInt64 (ascii "Timestamp") v.Timestamp
        ++ (EncodeString (ascii "GroupId") v.GroupId ++ rest))))))) e
      = decodeStreamEvent fuel rest v := by
  have h1 : fitsString v.Category :=
    hv ⟨ascii "Category", Ty.string, v.Category⟩ (by simp [StreamEvent.toReflect, reflectStreamEvent.fields])
  have h2 : fitsString v.TableName :=
    hv ⟨ascii "TableName", Ty.string, v.TableName⟩ (by simp [StreamEvent.toReflect, reflectStreamEvent.fields])
  have h3 : Slice.All fitsString v.PKColNames :=
    conformant_strings _ (hv ⟨ascii "PKColNames", Ty.slice Ty.string, v.PKColNames⟩
      (by simp [StreamEvent.toReflect, reflectStreamEvent.fields]))
  have h4 : Slice.All (Slice.All Value.Conformant) v.PKValues :=
    conformant_rows _ (hv ⟨ascii "PKValues", Ty.slice (Ty.slice Ty.iface), v.PKValues⟩
      (by simp [StreamEvent.toReflect, reflectStreamEvent.fields]))
  have h5 : fitsString v.Sql :=
    hv ⟨ascii "Sql", Ty.string, v.Sql⟩ (by simp [StreamEvent.toReflect, reflectStreamEvent.fields])
  have h6 : fitsInt64 v.Timestamp :=
    hv ⟨ascii "Timestamp", Ty.int64, v.Timestamp⟩ (by simp [StreamEvent.toReflect, reflectStreamEvent.fields])
  have h7 : fitsString v.GroupId :=
    hv ⟨ascii "GroupId", Ty.string, v.GroupId⟩ (by simp [StreamEvent.toReflect, reflectStreamEvent.fields])
  rw [step_Category _ _ _ _ h1, step_TableName _ _ _ _ h2, step_PKColNames _ _ _ _ h3,
    step_PKValues _ _ _ _ h4, step_Sql _ _ _ _ h5, step_Timestamp _ _ _ _ h6,
    step_GroupId _ _ _ _ h7]

/-- C8: for every `StreamEvent` value, the custom encoding is byte for byte the
generic reflective encoding of the plain struct with the same fields, in the
same declared order, holding the same values. -/
theorem custom_encoding_eq_reflective (e : StreamEvent) :
    e.MarshalBson = MarshalStruct e.toReflect.fields :=
  MarshalBson_eq_MarshalStruct e

/-- C9: for every conformant `StreamEvent` value, decoding the bytes produced
by encoding it succeeds and yields the value itself, equal in every field,
whatever the decoding target held before. -/
theorem unmarshal_marshal_roundtrip (v into : StreamEvent) (hv : v.Conformant) :
    StreamEvent.UnmarshalBson v.MarshalBson into = Except.ok v := by
  rw [MarshalBson_eq_MarshalStruct]
  generalize hbody : encodeFields v.toReflect.fields = body
  have hlen : 7 ≤ body.length := by
    rw [← hbody]
    exact encodeFields_length v.toReflect.fields
  have hshape : MarshalStruct v.toReflect.fields
      = putUint32 (4 + body.length + 1) ++ (body ++ [EOO]) := by
    simp [MarshalStruct, lenWriter, hbody, List.append_assoc]
  obtain ⟨k, hk⟩ : ∃ k, (body ++ [EOO]).length = k + 1 + 1 + 1 + 1 + 1 + 1 + 1 + 1 :=
    ⟨body.length - 7, by simp only [List.length_append, List.length_singleton]; omega⟩
  have hcheck : checkKeys (k + 1 + 1 + 1 + 1 + 1 + 1 + 1 + 1) (body ++ [EOO]) = Except.ok () := by
    have h := checkKeys_declared v.toReflect.fields
      (fun f hf => ⟨fields_declared v f hf, conformant_sized f.ty f.val (hv f hf)⟩) (k + 1) [EOO]
    rw [hbody] at h
    have hl : v.toReflect.fields.length = 7 := rfl
    rw [hl] at h
    rw [show k + 1 + 1 + 1 + 1 + 1 + 1 + 1 + 1 = k + 1 + 7 from rfl, h]
    exact checkKeys_end k []
  have hdec : decodeStreamEvent (k + 1 + 1 + 1 + 1 + 1 + 1 + 1 + 1) (body ++ [EOO]) into
      = Except.ok (v, []) := by
    rw [← hbody, encodeFields_streamEvent]
    simp only [List.append_assoc, List.nil_append]
    rw [decode_body v hv (k + 1) [EOO] into]
    simp [decodeStreamEvent, NextByte]
  simp only [StreamEvent.UnmarshalBson, hshape, Next_putUint32, hk, hcheck, hdec]

/-- C10: decoding into a `StreamEvent` any encoded document (the encoding of
any struct, with fields of any names, types and order, whose document is well
formed) that contains a field not declared in `StreamEvent` fails: the error
names the first such field of the document, and its message is
`Unrecognized tag` followed by the name of that field. -/
theorem unmarshal_undeclared_field_fails (fs : List Field) (into : StreamEvent)
    (hfs : WellFormed fs) (hex : ∃ f ∈ fs, f.name ∉ declaredNames) :
    ∃ x : Field, firstUndeclared fs = some x ∧ x ∈ fs ∧ x.name ∉ declaredNames
      ∧ StreamEvent.UnmarshalBson (MarshalStruct fs) into
          = Except.error (BsonError.unrecognizedTag x.name)
      ∧ (BsonError.unrecognizedTag x.name).Error = ascii "Unrecognized tag " ++ x.name := by
  obtain ⟨x, hfirst⟩ := firstUndeclared_exists fs hex
  obtain ⟨pre, post, hsplit, hpre, hx⟩ := firstUndeclared_split fs x hfirst
  have hxmem : x ∈ fs := by rw [hsplit]; simp
  refine ⟨x, hfirst, hxmem, hx, ?_, rfl⟩
  have hzero : ∀ b ∈ x.name, b ≠ 0 := (hfs x hxmem).1
  have hconf : ∀ f ∈ pre, f.name ∈ declaredNames ∧ Ty.Sized f.ty f.val := by
    intro f hf
    have hmem : f ∈ fs := by rw [hsplit]; exact List.mem_append_left _ hf
    exact ⟨hpre f hf, (hfs f hmem).2⟩
  generalize htail : encodeFields post ++ [EOO] = tail
  have hshape : MarshalStruct fs
      = putUint32 (4 + (encodeFields fs).length + 1)
          ++ (encodeFields pre ++ (EncodeField x.ty x.name x.val ++ tail)) := by
    rw [← htail, hsplit]
    simp [MarshalStruct, lenWriter, encodeFields_append, encodeFields, List.append_assoc]
  obtain ⟨kind, payload, _, hxenc⟩ := EncodeField_shape x.ty x.name x.val
  have hlen := encodeFields_length pre
  obtain ⟨k, hk⟩ : ∃ k, (encodeFields pre ++ (EncodeField x.ty x.name x.val ++ tail)).length
      = (k + 1) + pre.length :=
    ⟨(encodeFields pre ++ (EncodeField x.ty x.name x.val ++ tail)).length - pre.length - 1, by
      simp only [hxenc, EncodePrefix, List.length_append, List.length_cons]
      omega⟩
  have hcheck := checkKeys_declared pre hconf (k + 1) (EncodeField x.ty x.name x.val ++ tail)
  simp only [StreamEvent.UnmarshalBson, hshape, Next_putUint32, hk, hcheck,
    checkKeys_unknown k x tail hzero hx]

theorem unmarshal_marshal_roundtrip_witness :
    testEvent.Conformant
    ∧ StreamEvent.UnmarshalBson testEvent.MarshalBson zeroEvent = Except.ok testEvent :=
  ⟨by decide, unmarshal_marshal_roundtrip testEvent zeroEvent (by decide)⟩

theorem unmarshal_undeclared_field_fails_witness :
    (WellFormed zeroBad.fields
      ∧ (∃ f ∈ zeroBad.fields, f.name ∉ declaredNames)
      ∧ StreamEvent.UnmarshalBson (MarshalStruct zeroBad.fields) testEvent
          = Except.error (BsonError.unrecognizedTag (ascii "Extra"))
      ∧ (BsonError.unrecognizedTag (ascii "Extra")).Error = ascii "Unrecognized tag Extra")
    ∧ (WellFormed mistypedBad
      ∧ (∃ f ∈ mistypedBad, f.name ∉ declaredNames)
      ∧ StreamEvent.UnmarshalBson (MarshalStruct mistypedBad) zeroEvent
          = Except.error (BsonError.unrecognizedTag (ascii "Extra"))) := by
  have hex : ∃ f ∈ zeroBad.fields, f.name ∉ declaredNames :=
    ⟨⟨ascii "Extra", Ty.int, (0 : Int)⟩, by simp [zeroBad, badStreamEvent.fields], by decide⟩
  have hex2 : ∃ f ∈ mistypedBad, f.name ∉ declaredNames :=
    ⟨⟨ascii "Extra", Ty.int, (0 : Int)⟩, by simp [mistypedBad], by decide⟩
  obtain ⟨x, hfirst, _, _, herr, _⟩ :=
    unmarshal_undeclared_field_fails zeroBad.fields testEvent (by decide) hex
  obtain ⟨y, hfirst2, _, _, herr2, _⟩ :=
    unmarshal_undeclared_field_fails mistypedBad zeroEvent (by decide) hex2
  have hx : x = ⟨ascii "Extra", Ty.int, (0 : Int)⟩ := (Option.some.inj hfirst).symm
  have hy : y = ⟨ascii "Extra", Ty.int, (0 : Int)⟩ := (Option.some.inj hfirst2).symm
  rw [hx] at herr
  rw [hy] at herr2
  exact ⟨⟨by decide, hex, herr, by decide⟩, by decide, hex2, herr2⟩

end bson
